import Mathlib

/-!
Shallow embedding of the core of the text-scoring system
(`backend/app`): input validation, analyzer-level preprocessing,
the grammar finding-merge engine, the facet scoring formulas, weight
normalization in the orchestrator, and the cache service.

Numeric values are modelled over `ℚ` (the Python code uses floats; no
claim considered here hinges on float rounding of the arithmetic itself,
and Python's `round(x, 2)` is modelled by `round2` below).  Text is
modelled as `List Char`.  Computations that call external collaborators
(embedding model, LanguageTool, Gemini) are parameterized by an
environment record providing those oracles; all control flow and
arithmetic around them is embedded from the source.
-/

namespace TextScoring

/-! ### Python string primitives -/

/-- Whitespace characters recognized by Python's `str.split()` / `str.strip()`
(ASCII part; the texts manipulated by this code base are treated
character-wise). `Char.ofNat 11` is `\x0b`, `Char.ofNat 12` is `\x0c`. -/
def isPySpace (c : Char) : Bool :=
  c = ' ' || c = '\t' || c = '\n' || c = '\r' || c = Char.ofNat 11 || c = Char.ofNat 12

/-- Python `str.strip()`: drop leading and trailing whitespace. -/
def pyStrip (s : List Char) : List Char :=
  ((s.dropWhile isPySpace).reverse.dropWhile isPySpace).reverse

/-- Tokenizer behind Python `text.split()` (no arguments): maximal runs of
non-whitespace characters; `cur` is the current token accumulated in reverse. -/
def wsTokens : List Char → List Char → List (List Char)
  | [], cur => if cur = [] then [] else [cur.reverse]
  | c :: rest, cur =>
    if isPySpace c then
      if cur = [] then wsTokens rest [] else cur.reverse :: wsTokens rest []
    else wsTokens rest (c :: cur)

/-- Python `' '.join(tokens)`. -/
def joinSp : List (List Char) → List Char
  | [] => []
  | t :: ts =>
    match ts with
    | [] => t
    | _ :: _ => t ++ ' ' :: joinSp ts

/-- Match `pat` against a prefix of the second list, returning the remainder. -/
def stripPre : List Char → List Char → Option (List Char)
  | [], s => some s
  | _ :: _, [] => none
  | p :: ps, c :: cs => if p = c then stripPre ps cs else none

/-- Python `s.replace(pat, repl)` for a nonempty `pat`: left-to-right,
non-overlapping.  (For `pat = []` Python interleaves `repl` everywhere; the
code base only ever replaces nonempty patterns, and this model leaves the
string unchanged in that out-of-scope case.) -/
def pyReplace (pat repl : List Char) : List Char → List Char
  | [] => []
  | c :: rest =>
    if pat ≠ [] ∧ (stripPre pat (c :: rest)).isSome then
      repl ++ pyReplace pat repl (rest.drop (pat.length - 1))
    else
      c :: pyReplace pat repl rest
termination_by s => s.length
decreasing_by
  · simp only [List.length_drop, List.length_cons]
    omega
  · simp only [List.length_cons]
    omega

/-- Does `pat` occur as a contiguous substring? (Python `pat in s`.) -/
def containsSub (pat : List Char) : List Char → Bool
  | [] => (stripPre pat []).isSome
  | c :: rest => (stripPre pat (c :: rest)).isSome || containsSub pat rest

/-! ### config.py (`Settings`, defaults; no `.env` overrides in scope) -/

def minTextLength : ℕ := 50
def maxTextLength : ℕ := 50000
def cacheTTL : ℤ := 3600

/-- Scoring weight vector over the three facets. -/
structure WeightsR where
  grammar : ℚ
  coherence : ℚ
  relevance : ℚ
deriving DecidableEq

/-- The `Settings` defaults: grammar 0.4, coherence 0.3, relevance 0.3. -/
def settingsWeights : WeightsR := ⟨4/10, 3/10, 3/10⟩

/-- Model of `Settings.normalize_weights` (run once at import): divide by the total
when it is positive. -/
def normalizeSettings (w : WeightsR) : WeightsR :=
  let t := w.grammar + w.coherence + w.relevance
  if 0 < t then ⟨w.grammar / t, w.coherence / t, w.relevance / t⟩ else w

/-- The global normalized default weight vector used by `analyze_text`. -/
def defaultWeights : WeightsR := normalizeSettings settingsWeights

/-! ### models/schemas.py — `TextInput` validation -/

/-- Validation applied to `TextInput.text`: the pydantic field constraints
`min_length=10, max_length=50000` (checked on the raw string), then the
`validate_text` validator, which strips the text and rejects it when empty,
returning the stripped text. -/
def validateTextInput (text : List Char) : Except String (List Char) :=
  if text.length < 10 then
    .error "String should have at least 10 characters"
  else if 50000 < text.length then
    .error "String should have at most 50000 characters"
  else
    let s := pyStrip text
    if s = [] then .error "Text cannot be empty or only whitespace" else .ok s

/-! ### models/schemas.py — findings (`Error`) -/

inductive ErrorType
  | spelling
  | grammar
  | punctuation
  | style
  | clarity
deriving DecidableEq

inductive Severity
  | low
  | medium
  | high
  | critical
deriving DecidableEq

/-- A finding (`Error` in schemas.py).  `pos0`/`pos1` are `position[0]` and
`position[1]` (span start / end character offsets). -/
structure ErrorR where
  type : ErrorType
  severity : Severity
  pos0 : ℤ
  pos1 : ℤ
  message : String
  suggestion : Option String
  explanation : Option String
  confidence : ℚ
deriving DecidableEq

/-! ### analyzers/base_analyzer.py — `preprocess_text` -/

/-- The mangled pattern on the apostrophe-normalization line of
`preprocess_text`: the source file's smart-quote literals were damaged to
plain ASCII, leaving Python code that replaces the 15-character string
`, "'").replace(` with a single apostrophe.  We embed the file as-is. -/
def mojibakePat : List Char :=
  [',', ' ', '"', Char.ofNat 39, '"', ')', '.', 'r', 'e', 'p', 'l', 'a', 'c', 'e', '(']

/-- Model of `BaseAnalyzer.preprocess_text`: collapse all whitespace runs to single
spaces via `' '.join(text.split())`, drop zero-width characters, apply the
(as-damaged-in-source) quote replacements, and strip. -/
def preprocessText (text : List Char) : List Char :=
  let t1 := joinSp (wsTokens text [])
  let t2 := pyReplace [Char.ofNat 0x200d] []
      (pyReplace [Char.ofNat 0x200c] [] (pyReplace [Char.ofNat 0x200b] [] t1))
  let t3 := pyReplace ['"'] ['"'] (pyReplace ['"'] ['"'] t2)
  let t4 := pyReplace mojibakePat [Char.ofNat 39] t3
  pyStrip t4

/-! ### paragraph splitting (`_split_paragraphs` in coherence/relevance
analyzers): `re.split(r'\n\s*\n', text)`, then strip each piece and drop
the empty ones. -/

/-- Index of the last newline in a list, if any. -/
def lastNlIdx (l : List Char) : Option ℕ :=
  match l.reverse.findIdx? (fun c => c = '\n') with
  | some j => some (l.length - 1 - j)
  | none => none

/-- Splitter for the regex `\n\s*\n`: a separator starts at a newline and,
greedily, extends through whitespace up to the last newline of the maximal
whitespace run that follows (the backtracking of `\s*` before the final
`\n`).  `cur` is the current piece accumulated in reverse. -/
def splitBlankAux : List Char → List Char → List (List Char)
  | [], cur => [cur.reverse]
  | c :: rest, cur =>
    if c = '\n' then
      match lastNlIdx (rest.takeWhile isPySpace) with
      | some i => cur.reverse :: splitBlankAux (rest.drop (i + 1)) []
      | none => splitBlankAux rest (c :: cur)
    else
      splitBlankAux rest (c :: cur)
termination_by s => s.length
decreasing_by
  · simp only [List.length_drop, List.length_cons]
    omega
  · simp only [List.length_cons]
    omega
  · simp only [List.length_cons]
    omega

/-- Model of `_split_paragraphs(text)`. -/
def splitParagraphs (text : List Char) : List (List Char) :=
  ((splitBlankAux text []).map pyStrip).filter (fun p => p ≠ [])

/-! ### analyzers/grammar_analyzer.py — `_merge_errors` -/

/-- The deduplication key `(error.position[0], error.position[1], error.type)`. -/
def posKey (e : ErrorR) : ℤ × ℤ × ErrorType := (e.pos0, e.pos1, e.type)

/-- The near-duplicate test used for local findings:
`abs(error.position[0] - e.position[0]) < 5 and abs(error.position[1] - e.position[1]) < 5`. -/
def nearOverlap (a b : ErrorR) : Bool :=
  decide ((a.pos0 - b.pos0).natAbs < 5) && decide ((a.pos1 - b.pos1).natAbs < 5)

/-- Running state of `_merge_errors`: the accepted findings `all`
(`all_errors`) and the key set `seen` (`seen_positions`; a Python `set`,
modelled as a list queried by membership). -/
structure MergeState where
  all : List ErrorR
  seen : List (ℤ × ℤ × ErrorType)
deriving DecidableEq

/-- First loop of `_merge_errors`: accept every API (remote) finding whose
key has not been seen yet. -/
def mergeRemotePass : List ErrorR → MergeState → MergeState
  | [], st => st
  | e :: rest, st =>
    if posKey e ∈ st.seen then
      mergeRemotePass rest st
    else
      mergeRemotePass rest ⟨st.all ++ [e], st.seen ++ [posKey e]⟩

/-- Second loop of `_merge_errors`: accept a local finding only when it does
not near-overlap any already-accepted finding and its key is unseen. -/
def mergeLocalPass : List ErrorR → MergeState → MergeState
  | [], st => st
  | e :: rest, st =>
    if st.all.any (fun f => nearOverlap e f) = false ∧ posKey e ∉ st.seen then
      mergeLocalPass rest ⟨st.all ++ [e], st.seen ++ [posKey e]⟩
    else
      mergeLocalPass rest st

/-- Comparison used by `all_errors.sort(key=lambda e: e.position[0])`. -/
def startLE (a b : ErrorR) : Prop := a.pos0 ≤ b.pos0

instance : DecidableRel startLE := fun a b => Int.decLe a.pos0 b.pos0

instance : IsTotal ErrorR startLE := ⟨fun a b => le_total a.pos0 b.pos0⟩

instance : IsTrans ErrorR startLE := ⟨fun _ _ _ h1 h2 => le_trans h1 h2⟩

/-- Model of `_merge_errors(local_errors, api_errors)`.  Python's `list.sort` is a
stable sort; a stable sort's output is uniquely determined by the key and
the input order, so it is modelled by the stable `List.insertionSort`. -/
def mergeErrors (localErrs apiErrs : List ErrorR) : List ErrorR :=
  ((mergeLocalPass localErrs (mergeRemotePass apiErrs ⟨[], []⟩)).all).insertionSort startLE

/-- The findings accepted by the remote pass alone (the state of
`all_errors` when the local loop begins). -/
def acceptedRemote (apiErrs : List ErrorR) : List ErrorR :=
  (mergeRemotePass apiErrs ⟨[], []⟩).all

/-- Modelled from the spec: the "overlap-filtered local list" that
`merge(local, [])` is claimed to equal — the greedy left-to-right filter
keeping a local finding when it does not near-overlap any earlier-kept one,
in original relative order.  Comparator definition for the refinement
claims about `_merge_errors`. -/
def specFilterLocalAux : List ErrorR → List ErrorR → List ErrorR
  | [], acc => acc
  | e :: rest, acc =>
    if acc.any (fun f => nearOverlap e f) then
      specFilterLocalAux rest acc
    else
      specFilterLocalAux rest (acc ++ [e])

/-- Modelled from the spec: entry point of the comparator filter. -/
def specFilterLocal (l : List ErrorR) : List ErrorR := specFilterLocalAux l []

/-! ### analyzers/grammar_analyzer.py — `_calculate_score` -/

/-- Model of `severity_weights` (the dictionary covers every severity, so the
`.get(…, 1.0)` default is never consulted). -/
def severityWeight : Severity → ℚ
  | .low => 1/2
  | .medium => 1
  | .high => 2
  | .critical => 3

/-- Python `round(x, 2)`.  (Python rounds exact halves to even; the rational
`round` here rounds halves up.  No computation in this development lands on
an exact half.) -/
def round2 (q : ℚ) : ℚ := (round (q * 100) : ℤ) / 100

/-- Model of `GrammarAnalyzer._calculate_score(errors, word_count)`. -/
def calculateGrammarScore (errs : List ErrorR) (wordCount : ℕ) : ℚ :=
  if wordCount = 0 then 100
  else
    let totalPenalty := (errs.map (fun e => severityWeight e.severity)).sum
    let expectedErrors : ℚ := (wordCount : ℚ) / 50
    let errorRatio := totalPenalty / max expectedErrors 1
    round2 (max 0 (100 - errorRatio * 20))

/-- Modelled from the spec: the grammar score formula exactly as the spec
states it, `clamp(100 − error_ratio×20, 0, 100)` with no rounding.
Comparator definition for the refinement claim about `_calculate_score`. -/
def specGrammarFormula (errs : List ErrorR) (wordCount : ℕ) : ℚ :=
  let penalty := (errs.map (fun e => severityWeight e.severity)).sum
  let ratio := penalty / max ((wordCount : ℚ) / 50) 1
  min 100 (max 0 (100 - ratio * 20))

/-! ### analyzers/relevance_analyzer.py -/

/-- One entry of the `topic_drift` list produced by `_analyze_topic_drift`. -/
structure DriftEntry where
  paragraphIndex : ℕ
  relevanceScore : ℚ
  suggestion : String
deriving DecidableEq

/-- The parsed Gemini relevance payload (`api_analysis`), reduced to the
fields the scoring and suggestion code reads. -/
structure ApiRelevance where
  overallRelevance : Option String
  improvementSuggestions : List String
deriving DecidableEq

/-- Model of `RelevanceScore` (schemas.py), with `topic_coverage` as an association
list in insertion order. -/
structure RelevanceScoreR where
  score : ℚ
  topicCoverage : List (String × ℚ)
  keyTermsFound : List String
  missingAspects : List String
  topicDrift : List DriftEntry
  suggestions : List String
deriving DecidableEq

/-- Oracles for the external collaborators the relevance facet calls:
the sentence-embedding cosine similarity, TF-IDF key terms, the
missing-aspects heuristic, topic coverage, and the optional Gemini pass. -/
structure RelevanceEnv where
  sim : List Char → String → ℚ
  keyTerms : List Char → List String
  coverage : List Char → List String → List (String × ℚ)
  missingAspects : List Char → List String → List String → List String
  api : List Char → List String → Option ApiRelevance

/-- Model of `relevance_map.get(value, 0)` inside `_calculate_relevance_score`. -/
def relevanceAdjustment (s : String) : ℚ :=
  if s = "excellent" then 10
  else if s = "good" then 5
  else if s = "fair" then 0
  else if s = "poor" then -10
  else 0

/-- Model of `max(relevances) if relevances else 0`. -/
def pyMaxOrZero : List ℚ → ℚ
  | [] => 0
  | r :: rs => rs.foldl max r

/-- Model of `RelevanceAnalyzer._analyze_topic_drift(text, topics)`. -/
def analyzeTopicDrift (env : RelevanceEnv) (text : List Char) (topics : List String) :
    List DriftEntry :=
  let paragraphs := splitParagraphs text
  if paragraphs.length < 2 then []
  else
    paragraphs.enum.filterMap (fun p =>
      if (pyStrip p.2).length < 50 then none
      else
        let relevances := topics.map (fun t => env.sim p.2 t)
        let maxRelevance := pyMaxOrZero relevances
        if maxRelevance < 3/10 then
          some ⟨p.1, maxRelevance, "This section seems to drift from the main topic"⟩
        else none)

/-- Model of `RelevanceAnalyzer._calculate_relevance_score`. -/
def calculateRelevanceScore (topicCoverage : List (String × ℚ)) (keyTerms : List String)
    (topicDrift : List DriftEntry) (apiAnalysis : Option ApiRelevance) : ℚ :=
  let avgCoverage : ℚ :=
    if topicCoverage ≠ [] then (topicCoverage.map Prod.snd).sum / topicCoverage.length
    else 50
  let driftPenalty : ℚ := (topicDrift.length : ℚ) * 5
  let termBonus : ℚ := min 10 ((keyTerms.length : ℚ) / 2)
  let apiAdjustment : ℚ :=
    match apiAnalysis with
    | some a =>
      match a.overallRelevance with
      | some s => relevanceAdjustment s
      | none => 0
    | none => 0
  max 0 (min 100 (avgCoverage - driftPenalty + termBonus + apiAdjustment))

/-- Model of `RelevanceAnalyzer._generate_suggestions`. -/
def relevanceSuggestions (topicCoverage : List (String × ℚ)) (missingAspects : List String)
    (topicDrift : List DriftEntry) (apiAnalysis : Option ApiRelevance) : List String :=
  let lowCoverage := (topicCoverage.filter (fun p => p.2 < 50)).map Prod.fst
  let s1 : List String :=
    if lowCoverage ≠ [] then
      ["Expand coverage of: " ++ String.intercalate ", " (lowCoverage.take 3)]
    else []
  let s2 : List String :=
    if missingAspects ≠ [] then
      ["Consider addressing: " ++ String.intercalate ", " (missingAspects.take 3)]
    else []
  let s3 : List String :=
    if 2 < topicDrift.length then
      ["Several sections drift from the main topic. Consider refocusing or removing them"]
    else []
  let s4 : List String :=
    match apiAnalysis with
    | some a => a.improvementSuggestions.take 2
    | none => []
  let base := s1 ++ s2 ++ s3 ++ s4
  let s5 : List String :=
    if base = [] then
      if topicCoverage.all (fun p => 80 < p.2) then
        ["Good topic coverage! Consider adding more depth or examples"]
      else ["Ensure all sections clearly relate to the main topic"]
    else []
  (base ++ s5).take 5

/-- Model of `RelevanceAnalyzer.analyze(text, topic, topics)`.  An empty-string
`topic` and an empty `topics` list are falsy in Python and contribute no
topic, exactly as `if topic:` / `if topics:` behave. -/
def relevanceAnalyze (env : RelevanceEnv) (text : List Char) (topic : Option String)
    (topics : Option (List String)) : RelevanceScoreR :=
  let processedText := preprocessText text
  let allTopics :=
    (match topic with
     | some t => if t = "" then [] else [t]
     | none => []) ++
    (match topics with
     | some ts => ts
     | none => [])
  if allTopics = [] then
    ⟨50, [], [], [], [], ["Please provide a topic to analyze relevance against"]⟩
  else
    let keyTerms := env.keyTerms processedText
    let topicCoverage := env.coverage processedText allTopics
    let missing := env.missingAspects processedText allTopics keyTerms
    let drift := analyzeTopicDrift env processedText allTopics
    let apiAnalysis := env.api processedText allTopics
    let score := calculateRelevanceScore topicCoverage keyTerms drift apiAnalysis
    let suggestions := relevanceSuggestions topicCoverage missing drift apiAnalysis
    ⟨score, topicCoverage, keyTerms.take 20, missing, drift, suggestions⟩

/-! ### analyzers/coherence_analyzer.py — paragraph transitions -/

/-- One entry of the `paragraph_transitions` list. -/
structure TransitionR where
  paragraphIndex : ℕ
  transitionType : Option String
  connectionStrength : ℚ
  hasExplicitTransition : Bool
deriving DecidableEq

/-- Oracle for `_calculate_connection_strength` (sentence-embedding cosine
similarity between two sentences). -/
structure CoherenceEnv where
  connection : List Char → List Char → ℚ

/-- The `transition_words` table, in dictionary insertion order. -/
def transitionWords : List (String × List String) :=
  [("addition", ["furthermore", "moreover", "additionally", "also", "besides",
                 "in addition", "likewise", "similarly", "equally important"]),
   ("contrast", ["however", "nevertheless", "nonetheless", "on the other hand",
                 "conversely", "in contrast", "yet", "although", "despite"]),
   ("cause_effect", ["therefore", "consequently", "as a result", "thus", "hence",
                     "accordingly", "because", "since", "due to"]),
   ("sequence", ["first", "second", "third", "finally", "next", "then",
                 "subsequently", "meanwhile", "afterward", "lastly"]),
   ("example", ["for example", "for instance", "specifically", "namely",
                "such as", "including", "particularly", "especially"]),
   ("conclusion", ["in conclusion", "to conclude", "in summary", "overall",
                   "to sum up", "finally", "in brief", "ultimately"])]

/-- Model of `CoherenceAnalyzer._identify_transition_type(paragraph)`: first category
whose word starts the lowercased paragraph or occurs space-prefixed in its
first 50 characters. -/
def identifyTransitionType (paragraph : List Char) : Option String :=
  let lower := paragraph.map Char.toLower
  (transitionWords.filterMap (fun tw =>
    if tw.2.any (fun w =>
        (stripPre w.toList lower).isSome || containsSub (' ' :: w.toList) (lower.take 50)) then
      some tw.1
    else none)).head?

/-- Model of `CoherenceAnalyzer._split_sentences`: split on the regex
`(?<=[.!?])\s+(?=[A-Z])` — a maximal whitespace run preceded by `.`, `!` or
`?` and followed by an uppercase letter — then strip and drop empties.
`cur` accumulates the current sentence in reverse. -/
def splitSentencesCohAux : List Char → List Char → List (List Char)
  | [], cur => [cur.reverse]
  | c :: rest, cur =>
    if isPySpace c then
      -- the whitespace run starts at `c`, so the text after the run is
      -- `rest.dropWhile isPySpace`
      let after := rest.dropWhile isPySpace
      if (cur.head?.elim false (fun p => p = '.' || p = '!' || p = '?')) &&
         (after.head?.elim false (fun n => 'A' ≤ n && n ≤ 'Z')) then
        cur.reverse :: splitSentencesCohAux after []
      else
        splitSentencesCohAux rest (c :: cur)
    else
      splitSentencesCohAux rest (c :: cur)
termination_by s => s.length
decreasing_by
  · simp only [List.length_cons]
    have h := (List.dropWhile_sublist isPySpace (l := rest)).length_le
    omega
  · simp only [List.length_cons]
    omega
  · simp only [List.length_cons]
    omega

/-- Model of `_split_sentences` entry point. -/
def splitSentencesCoh (text : List Char) : List (List Char) :=
  ((splitSentencesCohAux text []).map pyStrip).filter (fun s => s ≠ [])

/-- Model of `CoherenceAnalyzer._analyze_paragraph_transitions(paragraphs)`. -/
def analyzeParagraphTransitions (env : CoherenceEnv) (paragraphs : List (List Char)) :
    List TransitionR :=
  (List.range (paragraphs.length - 1)).map (fun i =>
    let currentPara := paragraphs.getD i []
    let nextPara := paragraphs.getD (i + 1) []
    let transitionType := identifyTransitionType nextPara
    let currentSentences := splitSentencesCoh currentPara
    let nextSentences := splitSentencesCoh nextPara
    let connectionStrength :=
      match currentSentences.getLast?, nextSentences.head? with
      | some lastS, some firstS => env.connection lastS firstS
      | _, _ => 0
    ⟨i, transitionType, connectionStrength, transitionType.isSome⟩)

/-- The paragraph-transition bonus term of `_calculate_coherence_score`:
`sum(10 for t in paragraph_transitions if t['has_explicit_transition'] and
t['connection_strength'] > 0.5)`. -/
def transitionBonus (transitions : List TransitionR) : ℚ :=
  ((transitions.filter (fun t =>
    t.hasExplicitTransition && decide ((1 : ℚ)/2 < t.connectionStrength))).length : ℚ) * 10

/-- Model of `CoherenceAnalyzer._calculate_coherence_score`; `weakConnections` is the
length of the `weak_connections` list (the score reads nothing else from it)
and `fleschReadingEase` is `readability_scores.get('flesch_reading_ease', 60)`. -/
def calculateCoherenceScore (sentenceFlow : List ℚ) (transitions : List TransitionR)
    (weakConnections : ℕ) (fleschReadingEase : Option ℚ) : ℚ :=
  let flowScore := if sentenceFlow ≠ [] then sentenceFlow.sum / sentenceFlow.length * 100 else 100
  let weakPenalty : ℚ := (weakConnections : ℚ) * 5
  let bonus := transitionBonus transitions
  let fleschScore := fleschReadingEase.getD 60
  let readabilityFactor := min 100 (max 0 fleschScore) / 100
  max 0 (min 100 ((flowScore - weakPenalty + bonus) * readabilityFactor))

/-! ### main.py — `analyze_text` orchestration -/

/-- A facet score as the orchestrator consumes it. -/
structure FacetScoreR where
  score : ℚ
  suggestions : List String
deriving DecidableEq

/-- The caller-supplied `custom_weights` dictionary, restricted to the three
facet keys documented by the schema. -/
structure CustomWeights where
  grammar : Option ℚ
  coherence : Option ℚ
  relevance : Option ℚ
deriving DecidableEq

/-- Model of `weights.update(input_data.custom_weights)`: a key present in the custom
dictionary replaces the default, a missing key keeps it. -/
def overlayWeights (w : WeightsR) (c : CustomWeights) : WeightsR :=
  ⟨c.grammar.getD w.grammar, c.coherence.getD w.coherence, c.relevance.getD w.relevance⟩

/-- Sum of the three weights. -/
def sumW (w : WeightsR) : ℚ := w.grammar + w.coherence + w.relevance

/-- The weight handling of `analyze_text`: `if input_data.custom_weights:`
(None and the empty dictionary are falsy) then overlay and divide every
entry by the total.  When the overlaid total is exactly 0, Python's
`v/total` raises `ZeroDivisionError('float division by zero')`, which the
route handler's `except Exception` turns into an HTTP 500 — so the
normalization is fallible. -/
def applyCustomWeights (w : WeightsR) : Option CustomWeights → Except String WeightsR
  | none => .ok w
  | some c =>
    if c = ⟨none, none, none⟩ then .ok w
    else
      let u := overlayWeights w c
      let total := sumW u
      if total = 0 then .error "float division by zero"
      else .ok ⟨u.grammar / total, u.coherence / total, u.relevance / total⟩

/-- The composite-score expression of `analyze_text`. -/
def overallScoreCalc (w : WeightsR) (g c r : FacetScoreR) : ℚ :=
  g.score * w.grammar + c.score * w.coherence + r.score * w.relevance

/-- The composite result, reduced to the fields the claims reason about. -/
structure AnalysisResultR where
  overallScore : ℚ
  grammar : FacetScoreR
  coherence : FacetScoreR
  relevance : FacetScoreR
deriving DecidableEq

/-- A FastAPI `HTTPException` as raised by the route handler. -/
structure HTTPErr where
  status : ℕ
  detail : String
deriving DecidableEq

/-- Model of `asyncio.gather` without `return_exceptions`: succeeds only when every
facet task succeeds; otherwise the raised exception propagates (modelled as
the first failing facet in argument order). -/
def gatherThree (g c r : Except String FacetScoreR) :
    Except String (FacetScoreR × FacetScoreR × FacetScoreR) :=
  match g, c, r with
  | .ok gs, .ok cs, .ok rs => .ok (gs, cs, rs)
  | .error m, _, _ => .error m
  | _, .error m, _ => .error m
  | _, _, .error m => .error m

/-- The `analyze_text` handler after cache lookup, preprocessing and
statistics, as a function of the facet outcomes: gather the three facet
tasks, normalize the weights (which can raise `ZeroDivisionError`), build
`AnalysisResult(overall_score=round(overall_score, 2), …)` — whose pydantic
field constraint `overall_score: Field(ge=0, le=100)` raises a
`ValidationError` when the rounded composite falls outside [0, 100] — and
on any of these exceptions fall to the `except Exception` clause, which
raises `HTTPException(status_code=500, detail=str(e))`.  (The stand-in
detail string below models `str(e)` of the pydantic error.) -/
def analyzeOrchestrate (cw : Option CustomWeights) (g c r : Except String FacetScoreR) :
    Except HTTPErr AnalysisResultR :=
  match gatherThree g c r with
  | .error msg => .error ⟨500, msg⟩
  | .ok (gs, cs, rs) =>
    match applyCustomWeights defaultWeights cw with
    | .error msg => .error ⟨500, msg⟩
    | .ok weights =>
      let overall := round2 (overallScoreCalc weights gs cs rs)
      if 0 ≤ overall ∧ overall ≤ 100 then .ok ⟨overall, gs, cs, rs⟩
      else .error ⟨500, "1 validation error for AnalysisResult: overall_score out of range"⟩

/-! ### services/cache_service.py -/

/-- The payload `CacheService.set` stores: `{'result': …, 'timestamp': …,
'version': '1.0.0'}`. -/
structure CacheEntryR (α : Type) where
  result : α
  timestamp : ℤ
  version : String

/-- The underlying `diskcache.Cache`, modelled as a map from keys to an
entry together with its absolute expiry time (`diskcache` stores
`expire=ttl` relative to the write and hides expired entries from `get`). -/
def DiskStore (α : Type) : Type := String → Option (CacheEntryR α × ℤ)

/-- Model of `diskcache` read at time `now`: an expired entry behaves as missing. -/
def diskGet (st : DiskStore α) (key : String) (now : ℤ) : Option (CacheEntryR α) :=
  match st key with
  | some (e, expireAt) => if now < expireAt then some e else none
  | none => none

/-- Model of `CacheService.delete`. -/
def cacheDelete (st : DiskStore α) (key : String) : DiskStore α :=
  fun k => if k = key then none else st k

/-- Model of `CacheService._is_cache_valid`: the stored schema version must equal the
current one. -/
def isCacheValid (e : CacheEntryR α) : Bool := e.version == "1.0.0"

/-- Model of `CacheService.set(key, result)` at time `now`: store the payload with
version `'1.0.0'` and expiry `now + cache_ttl`; returns the new store and
the success flag. -/
def cacheSet (st : DiskStore α) (enabled : Bool) (key : String) (result : α) (now : ℤ) :
    DiskStore α × Bool :=
  if enabled then
    (fun k => if k = key then some (⟨result, now, "1.0.0"⟩, now + cacheTTL) else st k, true)
  else (st, false)

/-- Model of `CacheService.get(key)` at time `now`: return the payload only when an
unexpired entry exists and its version matches; on a version mismatch evict
the stale entry and miss.  Returns the result and the post-call store. -/
def cacheGet (st : DiskStore α) (enabled : Bool) (key : String) (now : ℤ) :
    Option α × DiskStore α :=
  if enabled then
    match diskGet st key now with
    | some e => if isCacheValid e then (some e.result, st) else (none, cacheDelete st key)
    | none => (none, st)
  else (none, st)

end TextScoring

/-!
## Lemmas

General structural lemmas about the embedded functions, shared by the
claim-level theorems below.
-/

namespace TextScoring

theorem wsTokens_no_space : ∀ (s cur : List Char), (∀ c ∈ cur, isPySpace c = false) →
    ∀ t ∈ wsTokens s cur, ∀ c ∈ t, isPySpace c = false
  | [], cur, h => by
    simp only [wsTokens]
    split
    · simp
    · intro t ht c hc
      simp only [List.mem_singleton] at ht
      subst ht
      exact h c (List.mem_reverse.mp hc)
  | a :: rest, cur, h => by
    simp only [wsTokens]
    cases ha : isPySpace a with
    | true =>
      simp only [if_true]
      split
      · exact wsTokens_no_space rest [] (by simp)
      · intro t ht c hc
        rcases List.mem_cons.mp ht with h1 | h2
        · subst h1
          exact h c (List.mem_reverse.mp hc)
        · exact wsTokens_no_space rest [] (by simp) t h2 c hc
    | false =>
      simp only [Bool.false_eq_true, if_false]
      refine wsTokens_no_space rest (a :: cur) ?_
      intro c hc
      rcases List.mem_cons.mp hc with h1 | h2
      · subst h1; exact ha
      · exact h c h2

theorem joinSp_mem : ∀ (ts : List (List Char)) (c : Char), c ∈ joinSp ts →
    c = ' ' ∨ ∃ t ∈ ts, c ∈ t
  | [], c, h => by simp [joinSp] at h
  | t :: ts, c, h => by
    cases ts with
    | nil =>
      right
      exact ⟨t, by simp, h⟩
    | cons u us =>
      simp only [joinSp] at h
      rcases List.mem_append.mp h with h1 | h2
      · exact Or.inr ⟨t, by simp, h1⟩
      · rcases List.mem_cons.mp h2 with h3 | h4
        · exact Or.inl h3
        · rcases joinSp_mem (u :: us) c h4 with h5 | ⟨w, hw, hcw⟩
          · exact Or.inl h5
          · exact Or.inr ⟨w, List.mem_cons_of_mem t hw, hcw⟩

theorem mem_of_pyReplace (pat repl : List Char) : ∀ (s : List Char) (c : Char),
    c ∈ pyReplace pat repl s → c ∈ repl ∨ c ∈ s
  | [], c, h => by simp [pyReplace] at h
  | a :: rest, c, h => by
    rw [pyReplace] at h
    split at h
    · rcases List.mem_append.mp h with h1 | h2
      · exact Or.inl h1
      · rcases mem_of_pyReplace pat repl _ c h2 with h3 | h4
        · exact Or.inl h3
        · exact Or.inr (List.mem_cons_of_mem a ((List.drop_sublist _ rest).subset h4))
    · rcases List.mem_cons.mp h with h1 | h2
      · exact Or.inr (h1 ▸ List.mem_cons_self a rest)
      · rcases mem_of_pyReplace pat repl rest c h2 with h3 | h4
        · exact Or.inl h3
        · exact Or.inr (List.mem_cons_of_mem a h4)
termination_by s c _h => s.length
decreasing_by
  all_goals
    have hd := (List.drop_sublist (pat.length - 1) rest).length_le
    simp only [List.length_cons]
    omega

theorem mem_of_pyStrip (s : List Char) (c : Char) (h : c ∈ pyStrip s) : c ∈ s := by
  unfold pyStrip at h
  rw [List.mem_reverse] at h
  have h2 := (List.dropWhile_sublist isPySpace).subset h
  rw [List.mem_reverse] at h2
  exact (List.dropWhile_sublist isPySpace).subset h2

theorem preprocessText_no_newline (text : List Char) : '\n' ∉ preprocessText text := by
  intro hmem
  unfold preprocessText at hmem
  have h4 := mem_of_pyStrip _ _ hmem
  rcases mem_of_pyReplace _ _ _ _ h4 with h | h3
  · simp at h
  rcases mem_of_pyReplace _ _ _ _ h3 with h | h3a
  · simp at h
  rcases mem_of_pyReplace _ _ _ _ h3a with h | h2
  · simp at h
  rcases mem_of_pyReplace _ _ _ _ h2 with h | h2a
  · simp at h
  rcases mem_of_pyReplace _ _ _ _ h2a with h | h2b
  · simp at h
  rcases mem_of_pyReplace _ _ _ _ h2b with h | h1
  · simp at h
  rcases joinSp_mem _ _ h1 with h | ⟨t, ht, hct⟩
  · simp at h
  · have := wsTokens_no_space text [] (by simp) t ht '\n' hct
    simp [isPySpace] at this

theorem splitBlankAux_no_newline : ∀ (s cur : List Char), '\n' ∉ s →
    splitBlankAux s cur = [cur.reverse ++ s]
  | [], cur, _ => by simp [splitBlankAux]
  | c :: rest, cur, h => by
    have hc : ¬ c = '\n' := fun he => h (he ▸ List.mem_cons_self c rest)
    rw [splitBlankAux, if_neg hc]
    rw [splitBlankAux_no_newline rest (c :: cur) (fun hm => h (List.mem_cons_of_mem c hm))]
    simp

theorem splitParagraphs_length_le_one (text : List Char) (h : '\n' ∉ text) :
    (splitParagraphs text).length ≤ 1 := by
  unfold splitParagraphs
  rw [splitBlankAux_no_newline text [] h]
  simp only [List.reverse_nil, List.nil_append, List.map_cons, List.map_nil]
  cases hd : decide (pyStrip text ≠ []) <;> simp_all

end TextScoring

namespace TextScoring

theorem any_eq_of_perm {α : Type} {l₁ l₂ : List α} (h : l₁.Perm l₂) (p : α → Bool) :
    l₁.any p = l₂.any p := by
  cases h1 : l₁.any p <;> cases h2 : l₂.any p
  · rfl
  · rw [List.any_eq_false] at h1
    rw [List.any_eq_true] at h2
    obtain ⟨x, hx, hpx⟩ := h2
    exact absurd hpx (by simp [h1 x (h.mem_iff.mpr hx)])
  · rw [List.any_eq_false] at h2
    rw [List.any_eq_true] at h1
    obtain ⟨x, hx, hpx⟩ := h1
    exact absurd hpx (by simp [h2 x (h.mem_iff.mp hx)])
  · rfl

theorem mergeRemotePass_state : ∀ (l : List ErrorR) (st : MergeState),
    ∃ s : List ErrorR,
      (mergeRemotePass l st).all = st.all ++ s ∧
      (mergeRemotePass l st).seen = st.seen ++ s.map posKey ∧
      s.Sublist l ∧
      (∀ e ∈ l, posKey e ∈ (mergeRemotePass l st).seen)
  | [], st => ⟨[], by simp [mergeRemotePass]⟩
  | e :: rest, st => by
    rw [mergeRemotePass]
    split
    · obtain ⟨s, h1, h2, h3, h4⟩ := mergeRemotePass_state rest st
      refine ⟨s, h1, h2, h3.cons e, ?_⟩
      intro f hf
      rcases List.mem_cons.mp hf with h5 | h6
      · subst h5
        rw [h2]
        exact List.mem_append_left _ (by assumption)
      · exact h4 f h6
    · obtain ⟨s, h1, h2, h3, h4⟩ :=
        mergeRemotePass_state rest ⟨st.all ++ [e], st.seen ++ [posKey e]⟩
      refine ⟨e :: s, ?_, ?_, h3.cons₂ e, ?_⟩
      · rw [h1]
        simp
      · rw [h2]
        simp
      · intro f hf
        rcases List.mem_cons.mp hf with h5 | h6
        · subst h5
          rw [h2]
          simp
        · exact h4 f h6

theorem mergeRemotePass_seen_nodup : ∀ (l : List ErrorR) (st : MergeState),
    st.seen.Nodup → (mergeRemotePass l st).seen.Nodup
  | [], _, h => h
  | e :: rest, st, h => by
    rw [mergeRemotePass]
    split
    · exact mergeRemotePass_seen_nodup rest st h
    · next hnm =>
      refine mergeRemotePass_seen_nodup rest ⟨st.all ++ [e], st.seen ++ [posKey e]⟩ ?_
      exact h.append (List.nodup_singleton _) (List.disjoint_singleton.mpr hnm)

theorem mergeRemotePass_of_nodup : ∀ (l : List ErrorR) (st : MergeState),
    (l.map posKey).Nodup → (∀ e ∈ l, posKey e ∉ st.seen) →
    mergeRemotePass l st = ⟨st.all ++ l, st.seen ++ l.map posKey⟩
  | [], st, _, _ => by simp [mergeRemotePass]
  | e :: rest, st, hnd, hout => by
    rw [mergeRemotePass]
    rw [if_neg (hout e (List.mem_cons_self e rest))]
    simp only [List.map_cons, List.nodup_cons] at hnd
    rw [mergeRemotePass_of_nodup rest ⟨st.all ++ [e], st.seen ++ [posKey e]⟩ hnd.2 ?_]
    · simp
    · intro f hf
      simp only [List.mem_append, List.mem_singleton, not_or]
      exact ⟨hout f (List.mem_cons_of_mem e hf), fun he => hnd.1 (he ▸ List.mem_map_of_mem posKey hf)⟩

theorem mergeRemotePass_find : ∀ (l : List ErrorR) (st : MergeState) (k : ℤ × ℤ × ErrorType),
    st.seen = st.all.map posKey →
    ((mergeRemotePass l st).all).find? (fun x => decide (posKey x = k)) =
      (st.all ++ l).find? (fun x => decide (posKey x = k))
  | [], st, k, _ => by simp [mergeRemotePass]
  | e :: rest, st, k, hinv => by
    rw [mergeRemotePass]
    split
    · next hmem =>
      rw [mergeRemotePass_find rest st k hinv]
      rw [List.find?_append, List.find?_append]
      by_cases hpe : posKey e = k
      · subst hpe
        rw [hinv] at hmem
        obtain ⟨f, hf, hfk⟩ := List.mem_map.mp hmem
        have hsome : (st.all.find? (fun x => decide (posKey x = posKey e))).isSome := by
          rw [List.find?_isSome]
          exact ⟨f, hf, by simp [hfk]⟩
        obtain ⟨y, hy⟩ := Option.isSome_iff_exists.mp hsome
        rw [hy]
        rfl
      · rw [List.find?_cons_of_neg _ (by simpa using hpe)]
    · rw [mergeRemotePass_find rest ⟨st.all ++ [e], st.seen ++ [posKey e]⟩ k (by simp [hinv])]
      dsimp only
      rw [List.append_assoc]
      rfl

theorem nearOverlap_symm (a b : ErrorR) : nearOverlap a b = nearOverlap b a := by
  unfold nearOverlap
  rw [show a.pos0 - b.pos0 = -(b.pos0 - a.pos0) by ring,
    show a.pos1 - b.pos1 = -(b.pos1 - a.pos1) by ring, Int.natAbs_neg, Int.natAbs_neg]

theorem mergeLocalPass_state : ∀ (l : List ErrorR) (st : MergeState),
    ∃ s : List ErrorR,
      (mergeLocalPass l st).all = st.all ++ s ∧
      (mergeLocalPass l st).seen = st.seen ++ s.map posKey ∧
      s.Sublist l ∧
      (∀ e ∈ s, ∀ f ∈ st.all, nearOverlap e f = false) ∧
      s.Pairwise (fun a b => nearOverlap b a = false)
  | [], st => ⟨[], by simp [mergeLocalPass]⟩
  | e :: rest, st => by
    rw [mergeLocalPass]
    split
    · next hcond =>
      obtain ⟨s, h1, h2, h3, h4, h5⟩ :=
        mergeLocalPass_state rest ⟨st.all ++ [e], st.seen ++ [posKey e]⟩
      refine ⟨e :: s, ?_, ?_, h3.cons₂ e, ?_, ?_⟩
      · rw [h1]
        simp
      · rw [h2]
        simp
      · intro f hf g hg
        rcases List.mem_cons.mp hf with h6 | h7
        · subst h6
          simpa using (List.any_eq_false.mp hcond.1) g hg
        · exact h4 f h7 g (List.mem_append_left _ hg)
      · refine List.Pairwise.cons ?_ h5
        intro b hb
        exact h4 b hb e (List.mem_append_right _ (List.mem_singleton_self e))
    · obtain ⟨s, h1, h2, h3, h4, h5⟩ := mergeLocalPass_state rest st
      exact ⟨s, h1, h2, h3.cons e, h4, h5⟩

theorem mergeLocalPass_perm : ∀ (l : List ErrorR) (st₁ st₂ : MergeState),
    st₁.all.Perm st₂.all → st₁.seen.Perm st₂.seen →
    (mergeLocalPass l st₁).all.Perm (mergeLocalPass l st₂).all ∧
    (mergeLocalPass l st₁).seen.Perm (mergeLocalPass l st₂).seen
  | [], _, _, ha, hs => ⟨ha, hs⟩
  | e :: rest, st₁, st₂, ha, hs => by
    rw [mergeLocalPass, mergeLocalPass]
    have hany : st₁.all.any (fun f => nearOverlap e f) = st₂.all.any (fun f => nearOverlap e f) :=
      any_eq_of_perm ha _
    have hmem : posKey e ∈ st₁.seen ↔ posKey e ∈ st₂.seen := hs.mem_iff
    by_cases hcond : st₁.all.any (fun f => nearOverlap e f) = false ∧ posKey e ∉ st₁.seen
    · rw [if_pos hcond, if_pos ⟨hany ▸ hcond.1, fun hm => hcond.2 (hmem.mpr hm)⟩]
      exact mergeLocalPass_perm rest _ _ (ha.append_right [e]) (hs.append_right [posKey e])
    · rw [if_neg hcond, if_neg ?_]
      · exact mergeLocalPass_perm rest st₁ st₂ ha hs
      · intro hc2
        exact hcond ⟨hany ▸ hc2.1, fun hm => hc2.2 (hmem.mp hm)⟩

theorem nearOverlap_of_posKey_eq {e f : ErrorR} (h : posKey f = posKey e) :
    nearOverlap e f = true := by
  unfold posKey at h
  simp only [Prod.mk.injEq] at h
  unfold nearOverlap
  rw [h.1, h.2.1]
  simp

theorem mergeLocalPass_eq_filterAux :
    ∀ (l acc : List ErrorR) (seen : List (ℤ × ℤ × ErrorType)),
    (∀ k ∈ seen, ∃ f ∈ acc, posKey f = k) →
    (mergeLocalPass l ⟨acc, seen⟩).all = specFilterLocalAux l acc
  | [], acc, seen, _ => by simp [mergeLocalPass, specFilterLocalAux]
  | e :: rest, acc, seen, hinv => by
    rw [mergeLocalPass, specFilterLocalAux]
    dsimp only
    cases hov : acc.any (fun f => nearOverlap e f) with
    | true =>
      rw [if_neg (by simp [hov]), if_pos (by simp [hov])]
      exact mergeLocalPass_eq_filterAux rest acc seen hinv
    | false =>
      have hkey : posKey e ∉ seen := by
        intro hk
        obtain ⟨f, hf, hfk⟩ := hinv (posKey e) hk
        have hne := List.any_eq_false.mp hov f hf
        exact hne (nearOverlap_of_posKey_eq hfk)
      rw [if_pos ⟨rfl, hkey⟩, if_neg (by simp)]
      refine mergeLocalPass_eq_filterAux rest (acc ++ [e]) (seen ++ [posKey e]) ?_
      intro k hk
      rcases List.mem_append.mp hk with h1 | h2
      · obtain ⟨f, hf, hfk⟩ := hinv k h1
        exact ⟨f, List.mem_append_left _ hf, hfk⟩
      · simp only [List.mem_singleton] at h2
        exact ⟨e, List.mem_append_right _ (List.mem_singleton_self e), h2.symm⟩

end TextScoring

/-!
## Claim theorems
-/

namespace TextScoring

/-- Claim C7 (confirmed): for every text analyzed with no topic and no
topics supplied, the relevance facet returns a score of exactly 50 and its
suggestion list contains a prompt to supply a topic, bypassing the rest of
the relevance formula — the returned record is exactly the neutral one,
with empty coverage, key-term, missing-aspect and drift components,
independently of the embedding/key-term/enrichment oracles. -/
theorem claim_C7 (env : RelevanceEnv) (text : List Char) :
    relevanceAnalyze env text none none =
      ⟨50, [], [], [], [], ["Please provide a topic to analyze relevance against"]⟩ ∧
    (relevanceAnalyze env text none none).score = 50 ∧
    "Please provide a topic to analyze relevance against" ∈
      (relevanceAnalyze env text none none).suggestions := by
  refine ⟨rfl, rfl, ?_⟩
  show "Please provide a topic to analyze relevance against" ∈
    (⟨50, [], [], [], [], ["Please provide a topic to analyze relevance against"]⟩ :
      RelevanceScoreR).suggestions
  simp

/-- Claim C10 (confirmed): the analyzer-level preprocessing collapses every
whitespace run (newlines included) to single spaces, so after it the text
splits into at most one paragraph; consequently the coherence
paragraph-transition list is empty and its bonus is 0, and the relevance
topic-drift list is empty, for every input text, every oracle environment
and every topic set. -/
theorem claim_C10 (text : List Char) (cenv : CoherenceEnv) (renv : RelevanceEnv)
    (topic : Option String) (topics : Option (List String)) (ts : List String) :
    (splitParagraphs (preprocessText text)).length ≤ 1 ∧
    analyzeParagraphTransitions cenv (splitParagraphs (preprocessText text)) = [] ∧
    transitionBonus (analyzeParagraphTransitions cenv (splitParagraphs (preprocessText text))) = 0 ∧
    analyzeTopicDrift renv (preprocessText text) ts = [] ∧
    (relevanceAnalyze renv text topic topics).topicDrift = [] := by
  have hle := splitParagraphs_length_le_one (preprocessText text) (preprocessText_no_newline text)
  have htr : analyzeParagraphTransitions cenv (splitParagraphs (preprocessText text)) = [] := by
    unfold analyzeParagraphTransitions
    have h0 : (splitParagraphs (preprocessText text)).length - 1 = 0 := by omega
    rw [h0]
    simp
  have hdrift : ∀ tl : List String, analyzeTopicDrift renv (preprocessText text) tl = [] := by
    intro tl
    unfold analyzeTopicDrift
    rw [if_pos (by omega)]
  refine ⟨hle, htr, by rw [htr]; simp [transitionBonus], hdrift ts, ?_⟩
  unfold relevanceAnalyze
  dsimp only
  split
  · rfl
  · exact hdrift _

end TextScoring


namespace TextScoring

/-- Claim C4 (corrected, counterexample): with the tolerance read as "within
±5 characters on both endpoints" (differences of at most 5), the claim fails:
a local finding whose span differs from an already-accepted remote finding
by exactly 5 characters on both endpoints is still accepted, because the
code tests the strict inequality `abs(…) < 5`. -/
theorem claim_C4_counterexample :
    mergeErrors [⟨.grammar, .medium, 5, 15, "local finding", none, none, 1⟩]
        [⟨.grammar, .medium, 0, 10, "remote finding", none, none, 1⟩] =
      [⟨.grammar, .medium, 0, 10, "remote finding", none, none, 1⟩,
       ⟨.grammar, .medium, 5, 15, "local finding", none, none, 1⟩] ∧
    ((5 : ℤ) - 0).natAbs ≤ 5 ∧ ((15 : ℤ) - 10).natAbs ≤ 5 := by
  decide

/-- Claim C4 (amended): every remote finding is accepted unless an
earlier-accepted finding has the identical (start, end, type) key — the
accepted remote findings form a subsequence of the remote list whose keys
are pairwise distinct and cover every remote key, and for every key the
surviving representative is the remote list's first finding with that key
(the earlier duplicate is the one kept); every accepted remote finding
reaches the output; each additional output finding comes from the local
list and never lies within the strict tolerance (both endpoint differences
below 5, i.e. at most ±4) of any accepted remote finding, nor within that
tolerance of any other accepted local finding; and the output is sorted
ascending by span start. -/
theorem claim_C4 (localErrs apiErrs : List ErrorR) :
    (mergeErrors localErrs apiErrs).Pairwise startLE ∧
    (acceptedRemote apiErrs).Sublist apiErrs ∧
    ((acceptedRemote apiErrs).map posKey).Nodup ∧
    (∀ e ∈ apiErrs, posKey e ∈ (acceptedRemote apiErrs).map posKey) ∧
    (∀ k : ℤ × ℤ × ErrorType,
      (acceptedRemote apiErrs).find? (fun x => decide (posKey x = k)) =
        apiErrs.find? (fun x => decide (posKey x = k))) ∧
    (∀ f ∈ acceptedRemote apiErrs, f ∈ mergeErrors localErrs apiErrs) ∧
    (∀ e ∈ mergeErrors localErrs apiErrs,
        e ∈ acceptedRemote apiErrs ∨
        (e ∈ localErrs ∧ ∀ f ∈ acceptedRemote apiErrs, nearOverlap e f = false)) ∧
    (∀ e ∈ mergeErrors localErrs apiErrs, ∀ f ∈ mergeErrors localErrs apiErrs,
        e ∉ acceptedRemote apiErrs → f ∉ acceptedRemote apiErrs → e ≠ f →
        nearOverlap e f = false) := by
  obtain ⟨sR, hR1, hR2, hR3, hR4⟩ := mergeRemotePass_state apiErrs ⟨[], []⟩
  obtain ⟨sL, hL1, hL2, hL3, hL4, hL5⟩ :=
    mergeLocalPass_state localErrs (mergeRemotePass apiErrs ⟨[], []⟩)
  have hkeep : acceptedRemote apiErrs = sR := by
    unfold acceptedRemote
    rw [hR1]
    rfl
  have hseen : (mergeRemotePass apiErrs ⟨[], []⟩).seen = sR.map posKey := by
    rw [hR2]
    rfl
  have hall : (mergeLocalPass localErrs (mergeRemotePass apiErrs ⟨[], []⟩)).all =
      acceptedRemote apiErrs ++ sL := by
    rw [hL1]
    rfl
  have hperm : (mergeErrors localErrs apiErrs).Perm (acceptedRemote apiErrs ++ sL) := by
    unfold mergeErrors
    rw [hall]
    exact List.perm_insertionSort startLE _
  have hinL : ∀ e ∈ mergeErrors localErrs apiErrs, e ∉ acceptedRemote apiErrs → e ∈ sL := by
    intro e he hek
    rcases List.mem_append.mp (hperm.mem_iff.mp he) with h1 | h2
    · exact absurd h1 hek
    · exact h2
  refine ⟨?_, ?_, ?_, ?_, ?_, ?_, ?_, ?_⟩
  · exact List.sorted_insertionSort startLE _
  · rw [hkeep]
    exact hR3
  · rw [hkeep, ← hseen]
    exact mergeRemotePass_seen_nodup apiErrs ⟨[], []⟩ List.nodup_nil
  · intro e he
    rw [hkeep, ← hseen]
    exact hR4 e he
  · intro k
    have h := mergeRemotePass_find apiErrs ⟨[], []⟩ k rfl
    simpa [acceptedRemote] using h
  · intro f hf
    exact hperm.symm.mem_iff.mp (List.mem_append_left _ hf)
  · intro e he
    rcases List.mem_append.mp (hperm.mem_iff.mp he) with h1 | h2
    · exact Or.inl h1
    · refine Or.inr ⟨hL3.subset h2, ?_⟩
      intro f hf
      refine hL4 e h2 f ?_
      unfold acceptedRemote at hf
      exact hf
  · intro e he f hf hek hfk hne
    have hsym : Symmetric (fun a b : ErrorR => nearOverlap b a = false) := by
      intro a b h
      rw [nearOverlap_symm]
      exact h
    have h := List.Pairwise.forall hsym hL5 (hinL e he hek) (hinL f hf hfk) hne
    rw [nearOverlap_symm]
    exact h

/-- Claim C3 (corrected, counterexample): the merge is not order-independent
with respect to the local list: two distinct local findings whose spans lie
within the strict overlap tolerance of each other survive or are dropped
depending on their relative order, so permuting the local input changes the
accepted set. -/
theorem claim_C3_counterexample :
    mergeErrors [⟨.grammar, .medium, 0, 10, "first wording issue", none, none, 1⟩,
                 ⟨.grammar, .medium, 3, 13, "second wording issue", none, none, 1⟩] [] =
      [⟨.grammar, .medium, 0, 10, "first wording issue", none, none, 1⟩] ∧
    mergeErrors [⟨.grammar, .medium, 3, 13, "second wording issue", none, none, 1⟩,
                 ⟨.grammar, .medium, 0, 10, "first wording issue", none, none, 1⟩] [] =
      [⟨.grammar, .medium, 3, 13, "second wording issue", none, none, 1⟩] ∧
    (⟨.grammar, .medium, 0, 10, "first wording issue", none, none, 1⟩ : ErrorR) ≠
      ⟨.grammar, .medium, 3, 13, "second wording issue", none, none, 1⟩ := by
  decide

/-- Claim C3 (amended): the merge is a deterministic function of its two
input lists, but it is order-independent only on the remote side and only
up to multiset equality under distinct keys: when the remote findings have
pairwise-distinct (start, end, type) keys, permuting the remote list yields
a permutation-equal accepted list; permuting the local list can change the
accepted set (see the counterexample). -/
theorem claim_C3 (localErrs apiErrs apiErrs' : List ErrorR)
    (hperm : apiErrs'.Perm apiErrs) (hnd : (apiErrs.map posKey).Nodup) :
    (mergeErrors localErrs apiErrs').Perm (mergeErrors localErrs apiErrs) := by
  have hnd' : (apiErrs'.map posKey).Nodup := (hperm.map posKey).nodup_iff.mpr hnd
  have h1 : mergeRemotePass apiErrs ⟨[], []⟩ = ⟨apiErrs, apiErrs.map posKey⟩ := by
    have h := mergeRemotePass_of_nodup apiErrs ⟨[], []⟩ hnd (by simp)
    simpa using h
  have h1' : mergeRemotePass apiErrs' ⟨[], []⟩ = ⟨apiErrs', apiErrs'.map posKey⟩ := by
    have h := mergeRemotePass_of_nodup apiErrs' ⟨[], []⟩ hnd' (by simp)
    simpa using h
  have h2 := mergeLocalPass_perm localErrs ⟨apiErrs', apiErrs'.map posKey⟩
    ⟨apiErrs, apiErrs.map posKey⟩ hperm (hperm.map posKey)
  unfold mergeErrors
  rw [h1, h1']
  exact ((List.perm_insertionSort startLE _).trans h2.1).trans
    (List.perm_insertionSort startLE _).symm

/-- Claim C3 witness: a concrete permutation of a distinct-key remote list,
with one local finding, for which the merge outputs are permutation-equal. -/
theorem claim_C3_witness :
    ([⟨.grammar, .medium, 20, 24, "agreement", none, none, 1⟩,
      ⟨.spelling, .high, 0, 4, "typo", none, none, 1⟩] : List ErrorR).Perm
      [⟨.spelling, .high, 0, 4, "typo", none, none, 1⟩,
       ⟨.grammar, .medium, 20, 24, "agreement", none, none, 1⟩] ∧
    (([⟨.spelling, .high, 0, 4, "typo", none, none, 1⟩,
       ⟨.grammar, .medium, 20, 24, "agreement", none, none, 1⟩] : List ErrorR).map posKey).Nodup ∧
    (mergeErrors [⟨.clarity, .low, 40, 44, "unclear", none, none, 1⟩]
        [⟨.grammar, .medium, 20, 24, "agreement", none, none, 1⟩,
         ⟨.spelling, .high, 0, 4, "typo", none, none, 1⟩]).Perm
      (mergeErrors [⟨.clarity, .low, 40, 44, "unclear", none, none, 1⟩]
        [⟨.spelling, .high, 0, 4, "typo", none, none, 1⟩,
         ⟨.grammar, .medium, 20, 24, "agreement", none, none, 1⟩]) := by
  refine ⟨by decide, by decide, ?_⟩
  exact claim_C3 _ _ _ (by decide) (by decide)

/-- Claim C9 (corrected, counterexample): `merge(local, [])` is not the
filtered local list in original relative order — the merge sorts by span
start, so an unsorted local list comes back reordered. -/
theorem claim_C9_counterexample :
    mergeErrors [⟨.grammar, .medium, 10, 20, "later span", none, none, 1⟩,
                 ⟨.spelling, .high, 0, 3, "early span", none, none, 1⟩] [] ≠
      specFilterLocal [⟨.grammar, .medium, 10, 20, "later span", none, none, 1⟩,
                       ⟨.spelling, .high, 0, 3, "early span", none, none, 1⟩] := by
  decide

/-- Claim C9 (amended): `merge(local, [])` equals the overlap-filtered local
list (greedy left-to-right filter, no spurious removals) sorted ascending by
span start; it equals the filtered list in its original relative order
exactly when the filtered list itself is already sorted by span start — in
particular whenever the local input list is sorted (the converse on the
input list fails: an unsorted input whose out-of-order findings are all
dropped by the filter also satisfies the equality). -/
theorem claim_C9 (localErrs : List ErrorR) :
    mergeErrors localErrs [] = (specFilterLocal localErrs).insertionSort startLE ∧
    (mergeErrors localErrs [] = specFilterLocal localErrs ↔
      (specFilterLocal localErrs).Pairwise startLE) ∧
    (localErrs.Pairwise startLE →
      mergeErrors localErrs [] = specFilterLocal localErrs) := by
  have hfilter : (mergeLocalPass localErrs (⟨[], []⟩ : MergeState)).all =
      specFilterLocal localErrs :=
    mergeLocalPass_eq_filterAux localErrs [] [] (by simp)
  have heq : mergeErrors localErrs [] = (specFilterLocal localErrs).insertionSort startLE := by
    unfold mergeErrors
    rw [show mergeRemotePass [] (⟨[], []⟩ : MergeState) = ⟨[], []⟩ from rfl, hfilter]
  have hiff : mergeErrors localErrs [] = specFilterLocal localErrs ↔
      (specFilterLocal localErrs).Pairwise startLE := by
    rw [heq]
    constructor
    · intro h
      have hs := List.sorted_insertionSort startLE (specFilterLocal localErrs)
      rw [h] at hs
      exact hs
    · intro hs
      exact List.Sorted.insertionSort_eq hs
  refine ⟨heq, hiff, fun hsorted => ?_⟩
  obtain ⟨s, h1, _, h3, _, _⟩ := mergeLocalPass_state localErrs ⟨[], []⟩
  have hsub : (specFilterLocal localErrs).Sublist localErrs := by
    rw [← hfilter, h1]
    simpa using h3
  exact hiff.mpr (List.Pairwise.sublist hsub hsorted)

/-- Claim C9 witness: for a concrete local list already sorted by span
start, the merge with an empty remote list equals the greedy filter. -/
theorem claim_C9_witness :
    ([⟨.spelling, .high, 0, 3, "early span", none, none, 1⟩,
      ⟨.grammar, .medium, 10, 20, "later span", none, none, 1⟩] : List ErrorR).Pairwise startLE ∧
    mergeErrors [⟨.spelling, .high, 0, 3, "early span", none, none, 1⟩,
                 ⟨.grammar, .medium, 10, 20, "later span", none, none, 1⟩] [] =
      specFilterLocal [⟨.spelling, .high, 0, 3, "early span", none, none, 1⟩,
                       ⟨.grammar, .medium, 10, 20, "later span", none, none, 1⟩] := by
  refine ⟨by decide, ?_⟩
  exact (claim_C9 _).2.2 (by decide)

end TextScoring

namespace TextScoring

/-- Claim C5 (corrected, counterexample): the validation does not enforce
the configured lower bound `min_text_length = 50` — this 20-character text
is accepted although its length is below the configured minimum. -/
theorem claim_C5_counterexample :
    (validateTextInput ("short but fine text!".toList)).isOk = true ∧
    ("short but fine text!".toList).length < minTextLength := by
  decide

/-- Claim C5 (amended): the input is accepted exactly when its raw length
lies in the schema bounds [10, 50000] and it is nonempty after trimming —
the configured `min_text_length = 50` is not consulted — and each rejection
carries a reason naming the violated constraint. -/
theorem claim_C5 (text : List Char) :
    ((validateTextInput text).isOk = true ↔
      (10 ≤ text.length ∧ text.length ≤ 50000 ∧ pyStrip text ≠ [])) ∧
    (text.length < 10 →
      validateTextInput text = .error "String should have at least 10 characters") ∧
    (50000 < text.length →
      validateTextInput text = .error "String should have at most 50000 characters") ∧
    (10 ≤ text.length → text.length ≤ 50000 → pyStrip text = [] →
      validateTextInput text = .error "Text cannot be empty or only whitespace") := by
  unfold validateTextInput
  refine ⟨?_, ?_, ?_, ?_⟩
  · constructor
    · intro h
      split_ifs at h with h1 h2
      · simp [Except.isOk, Except.toBool] at h
      · simp [Except.isOk, Except.toBool] at h
      · by_cases h3 : pyStrip text = []
        · rw [if_pos h3] at h
          simp [Except.isOk, Except.toBool] at h
        · exact ⟨by omega, by omega, h3⟩
    · rintro ⟨h1, h2, h3⟩
      rw [if_neg (by omega), if_neg (by omega), if_neg h3]
      rfl
  · intro h
    rw [if_pos h]
  · intro h
    rw [if_neg (by omega), if_pos h]
  · intro h1 h2 h3
    rw [if_neg (by omega), if_neg (by omega), if_pos h3]

/-- Claim C5 witness: concrete instantiations — a 7-character text is
rejected for length, and a 12-character all-whitespace text is rejected as
empty after trimming. -/
theorem claim_C5_witness :
    validateTextInput ("2+2 = 4".toList) = .error "String should have at least 10 characters" ∧
    validateTextInput ("            ".toList) =
      .error "Text cannot be empty or only whitespace" := by
  constructor
  · exact (claim_C5 _).2.1 (by decide)
  · exact (claim_C5 _).2.2.2 (by decide) (by decide) (by decide)

/-- Claim C6 (corrected, counterexample): the grammar score is not the bare
clamped formula — the code rounds it to two decimals.  With one low-severity
finding and 150 words the formula gives 290/3 = 96.666…, while the code
returns 96.67. -/
theorem claim_C6_counterexample :
    calculateGrammarScore [⟨.style, .low, 0, 4, "weak wording", none, none, 1⟩] 150 ≠
      specGrammarFormula [⟨.style, .low, 0, 4, "weak wording", none, none, 1⟩] 150 := by
  unfold calculateGrammarScore specGrammarFormula round2 severityWeight
  norm_num
  rw [round_eq]
  norm_num

/-- Claim C6 (amended): for a nonzero word count the grammar score equals
the spec's clamped formula rounded to two decimals (the clamp's upper bound
never bites, so the code's `max(0, …)` agrees with `clamp(…, 0, 100)`); for
word count 0 the code returns 100 directly; and any run with zero accepted
findings scores exactly 100. -/
theorem claim_C6 (errs : List ErrorR) (wordCount : ℕ) :
    calculateGrammarScore errs wordCount =
      (if wordCount = 0 then 100 else round2 (specGrammarFormula errs wordCount)) ∧
    calculateGrammarScore [] wordCount = 100 := by
  have hpen : ∀ l : List ErrorR, 0 ≤ (l.map (fun e => severityWeight e.severity)).sum := by
    intro l
    apply List.sum_nonneg
    intro x hx
    obtain ⟨e, _, he⟩ := List.mem_map.mp hx
    cases hs : e.severity <;> rw [hs] at he <;> rw [← he] <;> norm_num [severityWeight]
  have hround100 : round2 100 = 100 := by
    unfold round2
    rw [show ((100 : ℚ) * 100) = ((10000 : ℤ) : ℚ) by norm_num, round_intCast]
    norm_num
  constructor
  · by_cases h0 : wordCount = 0
    · simp [calculateGrammarScore, h0]
    · rw [if_neg h0]
      unfold calculateGrammarScore specGrammarFormula
      rw [if_neg h0]
      dsimp only
      have hratio : 0 ≤ (errs.map (fun e => severityWeight e.severity)).sum /
          max ((wordCount : ℚ) / 50) 1 :=
        div_nonneg (hpen errs) (le_trans zero_le_one (le_max_right _ _))
      have hle : max (0 : ℚ)
          (100 - (errs.map (fun e => severityWeight e.severity)).sum /
            max ((wordCount : ℚ) / 50) 1 * 20) ≤ 100 := by
        apply max_le (by norm_num)
        nlinarith
      rw [min_eq_right hle]
  · by_cases h0 : wordCount = 0
    · simp [calculateGrammarScore, h0]
    · unfold calculateGrammarScore
      rw [if_neg h0]
      dsimp only
      simp only [List.map_nil, List.sum_nil, zero_div]
      rw [zero_mul, sub_zero]
      rw [show max (0 : ℚ) 100 = 100 by norm_num]
      exact hround100

end TextScoring

namespace TextScoring
/-- Normalization outcome for the concrete custom weight dictionary
`{grammar: 1}`: overlay gives (1, 0.3, 0.3), total 1.6, and division yields
(0.625, 0.1875, 0.1875). -/
theorem applyCustomWeights_grammar_one :
    applyCustomWeights defaultWeights (some ⟨some 1, none, none⟩) = .ok ⟨5/8, 3/16, 3/16⟩ := by
  have hne : (⟨some 1, none, none⟩ : CustomWeights) ≠ ⟨none, none, none⟩ := by
    intro h
    exact Option.noConfusion (congrArg CustomWeights.grammar h)
  have ht : ¬ sumW (overlayWeights defaultWeights ⟨some 1, none, none⟩) = 0 := by
    norm_num [sumW, overlayWeights, defaultWeights, normalizeSettings, settingsWeights]
  rw [applyCustomWeights, if_neg hne]
  dsimp only
  rw [if_neg ht]
  norm_num [overlayWeights, sumW, defaultWeights, normalizeSettings, settingsWeights,
    WeightsR.mk.injEq]

/-- Claim C2 (corrected, counterexample): with `custom_weights = {grammar: 1}`
the normalized weight vector is (0.625, 0.1875, 0.1875), not (1.0, 0.0, 0.0),
and the composite score (here with facet scores 100/0/0) is 62.5, not the
grammar facet score — the overlay keeps the default coherence and relevance
weights in the renormalization total. -/
theorem claim_C2_counterexample :
    applyCustomWeights defaultWeights (some ⟨some 1, none, none⟩) ≠
      .ok ⟨1, 0, 0⟩ ∧
    applyCustomWeights defaultWeights (some ⟨some 1, none, none⟩) =
      .ok ⟨5/8, 3/16, 3/16⟩ ∧
    overallScoreCalc ⟨5/8, 3/16, 3/16⟩ ⟨100, []⟩ ⟨0, []⟩ ⟨0, []⟩ ≠ 100 := by
  refine ⟨?_, applyCustomWeights_grammar_one, ?_⟩
  · rw [applyCustomWeights_grammar_one]
    intro h
    simp only [Except.ok.injEq, WeightsR.mk.injEq] at h
    norm_num at h
  · norm_num [overallScoreCalc]

/-- Claim C2 (amended): custom weights are overlaid on the defaults (missing
facets keep their default) and the full set is renormalized to sum to 1
whenever the overlaid total is positive; with no custom weights the default
vector is used and already sums to 1; and for `custom_weights = {grammar: 1}`
the normalized vector is (0.625, 0.1875, 0.1875), so the composite is the
correspondingly weighted sum, not the bare grammar score. -/
theorem claim_C2 :
    (∀ c : CustomWeights, 0 < sumW (overlayWeights defaultWeights c) →
      ∃ w : WeightsR, applyCustomWeights defaultWeights (some c) = .ok w ∧ sumW w = 1) ∧
    (applyCustomWeights defaultWeights none = .ok defaultWeights ∧ sumW defaultWeights = 1) ∧
    applyCustomWeights defaultWeights (some ⟨some 1, none, none⟩) = .ok ⟨5/8, 3/16, 3/16⟩ := by
  refine ⟨?_, ⟨rfl, ?_⟩, applyCustomWeights_grammar_one⟩
  · intro c hpos
    by_cases hce : c = ⟨none, none, none⟩
    · subst hce
      refine ⟨defaultWeights, ?_, ?_⟩
      · rw [applyCustomWeights, if_pos rfl]
      · norm_num [sumW, defaultWeights, normalizeSettings, settingsWeights]
    · have ht : ¬ sumW (overlayWeights defaultWeights c) = 0 := ne_of_gt hpos
      refine ⟨⟨(overlayWeights defaultWeights c).grammar / sumW (overlayWeights defaultWeights c),
        (overlayWeights defaultWeights c).coherence / sumW (overlayWeights defaultWeights c),
        (overlayWeights defaultWeights c).relevance / sumW (overlayWeights defaultWeights c)⟩,
        ?_, ?_⟩
      · rw [applyCustomWeights, if_neg hce]
        dsimp only
        rw [if_neg ht]
      · unfold sumW at ht ⊢
        rw [div_add_div_same, div_add_div_same, div_self ht]
  · norm_num [sumW, defaultWeights, normalizeSettings, settingsWeights]

/-- Claim C2 witness: applying the normalization theorem to the concrete
custom weight dictionary `{grammar: 1}` yields a vector summing to 1. -/
theorem claim_C2_witness :
    0 < sumW (overlayWeights defaultWeights ⟨some 1, none, none⟩) ∧
    (∃ w : WeightsR, applyCustomWeights defaultWeights (some ⟨some 1, none, none⟩) = .ok w ∧
      sumW w = 1) := by
  constructor
  · norm_num [sumW, overlayWeights, defaultWeights, normalizeSettings, settingsWeights]
  · exact claim_C2.1 ⟨some 1, none, none⟩
      (by norm_num [sumW, overlayWeights, defaultWeights, normalizeSettings, settingsWeights])

/-- Claim C1 (corrected, counterexample): a failing facet does not degrade
to a neutral score — when the grammar facet raises, `analyze_text` returns
no result at all (the exception falls through to the handler's
`except Exception`, which raises HTTP 500). -/
theorem claim_C1_counterexample :
    (analyzeOrchestrate none (.error "spaCy pipeline crashed")
      (.ok ⟨80, []⟩) (.ok ⟨70, []⟩)).isOk = false := by
  rfl

/-- Claim C1 (amended): if any facet analysis raises, `analyze_text` fails
with an HTTP 500 error carrying an exception message — there is no
facet-level degradation to a neutral score of 50 in the orchestrator (only
the optional remote API pass inside each facet is absorbed), so more than
ValidationError reaches the caller as a failure.  Even with all three
facets succeeding, the request still fails with HTTP 500 when custom-weight
normalization raises (overlaid total exactly 0 → ZeroDivisionError) or when
the rounded composite falls outside the result schema's [0, 100] bound
(possible with negative custom weights); only when the facets succeed, the
weights normalize, and the rounded composite is in range does `analyze_text`
return the composite result. -/
theorem claim_C1 (cw : Option CustomWeights) (g c r : Except String FacetScoreR) :
    ((g.isOk = false ∨ c.isOk = false ∨ r.isOk = false) →
      ∃ d, analyzeOrchestrate cw g c r = .error ⟨500, d⟩) ∧
    ((applyCustomWeights defaultWeights cw).isOk = false →
      ∃ d, analyzeOrchestrate cw g c r = .error ⟨500, d⟩) ∧
    (∀ gs cs rs w, g = .ok gs → c = .ok cs → r = .ok rs →
      applyCustomWeights defaultWeights cw = .ok w →
      ((0 ≤ round2 (overallScoreCalc w gs cs rs) ∧
          round2 (overallScoreCalc w gs cs rs) ≤ 100) →
        analyzeOrchestrate cw g c r =
          .ok ⟨round2 (overallScoreCalc w gs cs rs), gs, cs, rs⟩) ∧
      (¬(0 ≤ round2 (overallScoreCalc w gs cs rs) ∧
          round2 (overallScoreCalc w gs cs rs) ≤ 100) →
        ∃ d, analyzeOrchestrate cw g c r = .error ⟨500, d⟩)) := by
  refine ⟨?_, ?_, ?_⟩
  · intro hfail
    cases g with
    | error m => cases c <;> cases r <;> exact ⟨m, rfl⟩
    | ok gs =>
      cases c with
      | error m => cases r <;> exact ⟨m, rfl⟩
      | ok cs =>
        cases r with
        | error m => exact ⟨m, rfl⟩
        | ok rs =>
          rcases hfail with h | h | h <;> simp [Except.isOk, Except.toBool] at h
  · intro hw
    cases g with
    | error m => cases c <;> cases r <;> exact ⟨m, rfl⟩
    | ok gs =>
      cases c with
      | error m => cases r <;> exact ⟨m, rfl⟩
      | ok cs =>
        cases r with
        | error m => exact ⟨m, rfl⟩
        | ok rs =>
          cases hac : applyCustomWeights defaultWeights cw with
          | error m =>
            refine ⟨m, ?_⟩
            unfold analyzeOrchestrate
            simp only [gatherThree]
            rw [hac]
          | ok w =>
            rw [hac] at hw
            simp [Except.isOk, Except.toBool] at hw
  · intro gs cs rs w hg hc hr hw
    subst hg
    subst hc
    subst hr
    constructor
    · intro hrange
      unfold analyzeOrchestrate
      simp only [gatherThree]
      rw [hw]
      dsimp only
      rw [if_pos hrange]
    · intro hrange
      unfold analyzeOrchestrate
      simp only [gatherThree]
      rw [hw]
      dsimp only
      rw [if_neg hrange]
      exact ⟨_, rfl⟩

/-- Claim C1 witness: a failing facet yields an HTTP 500 failure; so does a
zero-sum custom weight dictionary `{grammar: -0.6}` even with all facets
succeeding; and three succeeding facets with default weights yield the
composite result (here 90·0.4 + 80·0.3 + 70·0.3 = 81). -/
theorem claim_C1_witness :
    (∃ d, analyzeOrchestrate none (.error "spaCy pipeline crashed")
        (.ok ⟨80, []⟩) (.ok ⟨70, []⟩) = .error ⟨500, d⟩) ∧
    (∃ d, analyzeOrchestrate (some ⟨some (-3/5), none, none⟩)
        (.ok ⟨90, []⟩) (.ok ⟨80, []⟩) (.ok ⟨70, []⟩) = .error ⟨500, d⟩) ∧
    analyzeOrchestrate none (.ok ⟨90, []⟩) (.ok ⟨80, []⟩) (.ok ⟨70, []⟩) =
      .ok ⟨81, ⟨90, []⟩, ⟨80, []⟩, ⟨70, []⟩⟩ := by
  have hdiv : applyCustomWeights defaultWeights (some ⟨some (-3/5), none, none⟩) =
      .error "float division by zero" := by
    have hne : (⟨some (-3/5), none, none⟩ : CustomWeights) ≠ ⟨none, none, none⟩ := by
      intro h
      exact Option.noConfusion (congrArg CustomWeights.grammar h)
    rw [applyCustomWeights, if_neg hne]
    dsimp only
    rw [if_pos (by norm_num [sumW, overlayWeights, defaultWeights, normalizeSettings,
      settingsWeights])]
  have hoverall : round2 (overallScoreCalc defaultWeights ⟨90, []⟩ ⟨80, []⟩ ⟨70, []⟩) = 81 := by
    have h81 : overallScoreCalc defaultWeights ⟨90, []⟩ ⟨80, []⟩ ⟨70, []⟩ = 81 := by
      norm_num [overallScoreCalc, defaultWeights, normalizeSettings, settingsWeights]
    rw [h81]
    unfold round2
    rw [show ((81 : ℚ) * 100) = ((8100 : ℤ) : ℚ) by norm_num, round_intCast]
    norm_num
  refine ⟨?_, ?_, ?_⟩
  · exact (claim_C1 none _ _ _).1 (Or.inl (by decide))
  · exact (claim_C1 (some ⟨some (-3/5), none, none⟩) _ _ _).2.1 (by rw [hdiv]; rfl)
  · have h := ((claim_C1 none (.ok ⟨90, []⟩) (.ok ⟨80, []⟩) (.ok ⟨70, []⟩)).2.2
      ⟨90, []⟩ ⟨80, []⟩ ⟨70, []⟩ defaultWeights rfl rfl rfl rfl).1
      (by rw [hoverall]; norm_num)
    rw [hoverall] at h
    exact h

end TextScoring

namespace TextScoring

/-- Claim C8 (confirmed): `get` returns the cached result exactly when an
entry exists, is unexpired, and its stored schema version matches the
current `'1.0.0'`; a version mismatch on a live entry is a miss and evicts
the entry; and `set` followed by `get` on the same key returns the stored
result for query times before the TTL elapses and misses once
`cache_ttl` has elapsed. -/
theorem claim_C8 (α : Type) (st : DiskStore α) (key : String) (now : ℤ) :
    (∀ r : α, (cacheGet st true key now).1 = some r ↔
      ∃ (e : CacheEntryR α) (expireAt : ℤ), st key = some (e, expireAt) ∧ now < expireAt ∧
        e.version = "1.0.0" ∧ e.result = r) ∧
    (∀ (e : CacheEntryR α) (expireAt : ℤ),
      st key = some (e, expireAt) → now < expireAt → e.version ≠ "1.0.0" →
      (cacheGet st true key now).1 = none ∧ (cacheGet st true key now).2 key = none) ∧
    (∀ (v : α) (queryTime : ℤ),
      (queryTime < now + cacheTTL →
        (cacheGet (cacheSet st true key v now).1 true key queryTime).1 = some v) ∧
      (now + cacheTTL ≤ queryTime →
        (cacheGet (cacheSet st true key v now).1 true key queryTime).1 = none)) := by
  refine ⟨?_, ?_, ?_⟩
  · intro r
    constructor
    · intro h
      unfold cacheGet diskGet at h
      rw [if_pos rfl] at h
      cases hst : st key with
      | none => rw [hst] at h; simp at h
      | some pair =>
        obtain ⟨e, expireAt⟩ := pair
        rw [hst] at h
        dsimp only at h
        by_cases hexp : now < expireAt
        · rw [if_pos hexp] at h
          dsimp only at h
          by_cases hver : isCacheValid e = true
          · rw [if_pos hver] at h
            simp only [Option.some.injEq] at h
            unfold isCacheValid at hver
            exact ⟨e, expireAt, rfl, hexp, by simpa using hver, h⟩
          · rw [if_neg hver] at h
            simp at h
        · rw [if_neg hexp] at h
          simp at h
    · rintro ⟨e, expireAt, hst, hexp, hver, hres⟩
      unfold cacheGet diskGet
      rw [if_pos rfl, hst]
      dsimp only
      rw [if_pos hexp]
      dsimp only
      rw [if_pos (by unfold isCacheValid; simpa using hver)]
      simpa using hres
  · intro e expireAt hst hexp hver
    unfold cacheGet diskGet
    rw [if_pos rfl, hst]
    dsimp only
    rw [if_pos hexp]
    dsimp only
    rw [if_neg (by unfold isCacheValid; simpa using hver)]
    exact ⟨rfl, by simp [cacheDelete]⟩
  · intro v queryTime
    constructor
    · intro hq
      simp [cacheGet, cacheSet, diskGet, isCacheValid, hq]
    · intro hq
      simp [cacheGet, cacheSet, diskGet, isCacheValid, show ¬ queryTime < now + cacheTTL by omega]

/-- Claim C8 witness: on an initially empty store, a value set at time 0 is
returned at time 10 and is a miss at time 3600 (the TTL). -/
theorem claim_C8_witness :
    ((10 : ℤ) < 0 + cacheTTL) ∧ ((0 : ℤ) + cacheTTL ≤ 3600) ∧
    (cacheGet (cacheSet ((fun _ => none) : DiskStore ℕ) true "k" 42 0).1 true "k" 10).1 =
      some 42 ∧
    (cacheGet (cacheSet ((fun _ => none) : DiskStore ℕ) true "k" 42 0).1 true "k" 3600).1 =
      none := by
  refine ⟨by decide, by decide, ?_, ?_⟩
  · exact ((claim_C8 ℕ (fun _ => none) "k" 0).2.2 42 10).1 (by decide)
  · exact ((claim_C8 ℕ (fun _ => none) "k" 0).2.2 42 3600).2 (by decide)

end TextScoring

namespace TextScoring

/-- Claim C4 witness: instantiation of the amended merge characterization
at a concrete remote list — the key of the remote finding is covered by the
accepted-remote key set. -/
theorem claim_C4_witness :
    (⟨.spelling, .high, 0, 4, "typo", none, none, 1⟩ : ErrorR) ∈
      ([⟨.spelling, .high, 0, 4, "typo", none, none, 1⟩] : List ErrorR) ∧
    posKey ⟨.spelling, .high, 0, 4, "typo", none, none, 1⟩ ∈
      (acceptedRemote [⟨.spelling, .high, 0, 4, "typo", none, none, 1⟩]).map posKey := by
  refine ⟨by decide, ?_⟩
  exact (claim_C4 [] [⟨.spelling, .high, 0, 4, "typo", none, none, 1⟩]).2.2.2.1 _ (by decide)

end TextScoring
